import Mathlib

/-!
Verification of the MARS (Memory Array Redcode Simulator) core of libcw.

The definitions below are a shallow embedding of `src/simulation/mars.rs`
(the `Mars` runtime) and, for the loader claims, of `src/simulation/core.rs`
(the `Core` runtime).  Rust `usize` addresses are modelled as `Nat` with the
wrap at `2^64` made explicit where the source relies on `wrapping_sub` /
`wrapping_add`; `isize` offsets are modelled as `Int`, with Rust `/` and `%`
rendered as truncated division `Int.tdiv` / `Int.tmod` (overflow of `isize`
addition and multiplication is not modelled; all states considered stay far
below the `isize` bounds).  A Rust panic (`unwrap` on an empty queue,
division by zero, `unimplemented!`) is modelled by returning `none`.
-/

/-- Modelled from the spec: the redcode data types live in the
`src/redcode/op_code.rs`, `op_mode.rs`, `op_field.rs`, `field.rs`,
`addressing_mode.rs` and `instruction.rs` submodules, which are not present
under `src/`; only `src/redcode/mod.rs` re-exporting them is.  Their shape is
fixed by every use in `mars.rs` and `core.rs` and by section 3 of the spec.
`OpCode` is the seventeen-plus-one opcode enumeration. -/
inductive OpCode
  | Dat | Mov | Add | Sub | Mul | Div | Mod | Jmp | Jmz | Jmn | Djn
  | Spl | Seq | Sne | Slt | Ldp | Stp | Nop
deriving DecidableEq, Repr

/-- Modelled from the spec (section 3): the seven opcode modes selecting which
operand halves participate. -/
inductive OpMode
  | A | B | AB | BA | F | X | I
deriving DecidableEq, Repr

/-- Modelled from the spec (section 3): the eight addressing modes. -/
inductive AddressingMode
  | Immediate | Direct
  | AIndirect | BIndirect
  | AIndirectPreDecrement | BIndirectPreDecrement
  | AIndirectPostIncrement | BIndirectPostIncrement
deriving DecidableEq, Repr

/-- Modelled from the spec: an operand field carries an addressing mode and a
signed offset (`Offset` is Rust `isize`, modelled as `Int`). -/
structure Redcode.Field where
  mode   : AddressingMode
  offset : Int
deriving DecidableEq, Repr

/-- Modelled from the spec: the opcode field of an instruction, an opcode
paired with an opcode mode. -/
structure OpField where
  code : OpCode
  mode : OpMode
deriving DecidableEq, Repr

/-- Modelled from the spec: one redcode instruction, a 5-tuple
`(OpCode, OpMode, A, B)`. -/
structure Instruction where
  op : OpField
  a  : Redcode.Field
  b  : Redcode.Field
deriving DecidableEq, Repr

/-- Modelled from the spec (section 3): the default cell is `DAT.F #0, #0`. -/
def defaultInstruction : Instruction :=
  { op := { code := OpCode.Dat, mode := OpMode.F }
  , a  := { mode := AddressingMode.Immediate, offset := 0 }
  , b  := { mode := AddressingMode.Immediate, offset := 0 } }

instance : Inhabited Instruction := ⟨defaultInstruction⟩

/-- Events returned by a successful step, from `MarsEvent` in `mars.rs`. -/
inductive MarsEvent
  | Finished
  | Tied
  | Split
  | Terminated (pid : Nat)
  | Jumped
  | Skipped
  | Stepped
deriving DecidableEq, Repr

/-- Decidable equality for `Except`, needed to evaluate step results in the
concrete runs. -/
instance {e a : Type} [DecidableEq e] [DecidableEq a] : DecidableEq (Except e a) :=
  fun x y =>
    match x, y with
    | Except.error u, Except.error v =>
      if h : u = v then isTrue (by rw [h]) else isFalse (fun hc => by cases hc; exact h rfl)
    | Except.ok u, Except.ok v =>
      if h : u = v then isTrue (by rw [h]) else isFalse (fun hc => by cases hc; exact h rfl)
    | Except.error _, Except.ok _ => isFalse (fun hc => by cases hc)
    | Except.ok _, Except.error _ => isFalse (fun hc => by cases hc)

/-- The `Mars` runtime state, from the struct `Mars` in `mars.rs`.  The two
`VecDeque`s are modelled as lists whose head is the deque front; the `HashMap`
for p-space is modelled as an association list. -/
structure Mars where
  memory        : List Instruction
  ir            : Instruction
  cycle         : Nat
  process_queue : List (Nat × List Nat)
  pspace        : List (Nat × List Instruction)
  halted        : Bool
  max_length    : Nat
  min_distance  : Nat
  version       : Nat
  pspace_size   : Nat
  max_processes : Nat
  max_cycles    : Nat
deriving DecidableEq, Repr

/-- Number of values of Rust `usize`; address arithmetic in the source wraps
at this bound (`wrapping_add` / `wrapping_sub`). -/
def USIZE : Nat := 2 ^ 64

/-- Mirrors `Mars::size`: the length of the memory vector. -/
def Mars.size (m : Mars) : Nat := m.memory.length

/-- Mirrors `Mars::fetch`: read `memory[addr % size]`.  The source indexes the
vector directly; for `size > 0` (every state considered here) the index is in
bounds, so the `getD` default is never used. -/
def Mars.fetch (m : Mars) (addr : Nat) : Instruction :=
  m.memory.getD (addr % m.size) defaultInstruction

/-- Mirrors `Mars::store`: write `memory[addr % size]`. -/
def Mars.store (m : Mars) (addr : Nat) (instr : Instruction) : Mars :=
  { m with memory := m.memory.set (addr % m.size) instr }

/-- Mirrors `Mars::current_queue`: the queue of the front schedule entry. -/
def Mars.currentQueue (m : Mars) : Option (List Nat) :=
  m.process_queue.head?.map Prod.snd

/-- Mirrors `Mars::pc`: the front pc of the front queue, when both exist. -/
def Mars.pcOpt (m : Mars) : Option Nat :=
  m.process_queue.head?.bind (fun q => q.2.head?)

/-- Mirrors `Mars::pid`: the pid of the front schedule entry. -/
def Mars.pidOpt (m : Mars) : Option Nat :=
  m.process_queue.head?.map Prod.fst

/-- Mirrors `Mars::process_count`: a fold over the schedule starting from the
accumulator `1` (the source literally starts the fold at one, not zero). -/
def Mars.process_count (m : Mars) : Nat :=
  m.process_queue.foldl (fun acc p => acc + p.2.length) 1

/-- The quantity named `total_processes` by the spec: the sum of the lengths
of all warrior queues.  This is the claim-side definition used in theorem
statements, to be compared with `Mars.process_count` above. -/
def Mars.totalProcesses (m : Mars) : Nat :=
  (m.process_queue.map (fun p => p.2.length)).sum

/-- Mirrors `Mars::calc_addr_offset` (identical in `core.rs`): for a negative
offset the source computes `base.wrapping_sub(-offset as usize) % size`, i.e.
the subtraction wraps at `2^64` before the reduction modulo `size`; for a
non-negative offset it is `base.wrapping_add(offset as usize) % size`.
For `offset = isize min`, `-offset` wraps to `isize min` again and the cast
to `usize` yields `2^63 = (-offset).toNat`, so the formula below also covers
that case. -/
def calc_addr_offset (size : Nat) (base : Nat) (offset : Int) : Nat :=
  if offset < 0 then
    ((base + (USIZE - (-offset).toNat % USIZE)) % USIZE) % size
  else
    ((base + offset.toNat % USIZE) % USIZE) % size

/-- Mirrors `Mars::effective_addr`: effective address of the A (argument
`true`) or B (argument `false`) operand of the instruction register; `none`
models the `unwrap` panic when no process is queued. -/
def Mars.effective_addr (m : Mars) (use_a_field : Bool) : Option Nat :=
  let field := if use_a_field then m.ir.a else m.ir.b
  match m.pcOpt with
  | none => none
  | some pc =>
    let direct := m.fetch (calc_addr_offset m.size pc field.offset)
    match field.mode with
    | AddressingMode.Immediate => some pc
    | AddressingMode.Direct => some (calc_addr_offset m.size pc field.offset)
    | AddressingMode.AIndirect
    | AddressingMode.AIndirectPreDecrement
    | AddressingMode.AIndirectPostIncrement =>
        some (calc_addr_offset m.size pc (direct.a.offset + field.offset))
    | AddressingMode.BIndirect
    | AddressingMode.BIndirectPreDecrement
    | AddressingMode.BIndirectPostIncrement =>
        some (calc_addr_offset m.size pc (direct.b.offset + field.offset))

/-- Mirrors `Mars::effective_addr_a`. -/
def Mars.effective_addr_a (m : Mars) : Option Nat := m.effective_addr true

/-- Mirrors `Mars::effective_addr_b`. -/
def Mars.effective_addr_b (m : Mars) : Option Nat := m.effective_addr false

/-- Mirrors `Mars::fetch_effective_a`. -/
def Mars.fetch_effective_a (m : Mars) : Option Instruction :=
  m.effective_addr_a.map m.fetch

/-- Mirrors `Mars::fetch_effective_b`. -/
def Mars.fetch_effective_b (m : Mars) : Option Instruction :=
  m.effective_addr_b.map m.fetch

/-- Mirrors `Mars::store_effective_b`. -/
def Mars.store_effective_b (m : Mars) (instr : Instruction) : Option Mars :=
  m.effective_addr_b.map (fun addr => m.store addr instr)

/-- Mirrors `Mars::step_pc`: overwrite the front pc of the current queue with
`(pc + 1) % size` (the front slot is replaced in place, not popped). -/
def Mars.step_pc (m : Mars) : Option (Mars × MarsEvent) :=
  match m.process_queue with
  | [] => none
  | (pid, q) :: rest =>
    match q with
    | [] => none
    | pc :: qs =>
      some ({ m with process_queue := (pid, ((pc + 1) % m.size) :: qs) :: rest },
            MarsEvent.Stepped)

/-- Mirrors `Mars::skip_pc`: overwrite the front pc with `(pc + 2) % size`. -/
def Mars.skip_pc (m : Mars) : Option (Mars × MarsEvent) :=
  match m.process_queue with
  | [] => none
  | (pid, q) :: rest =>
    match q with
    | [] => none
    | pc :: qs =>
      some ({ m with process_queue := (pid, ((pc + 2) % m.size) :: qs) :: rest },
            MarsEvent.Skipped)

/-- Mirrors `Mars::jump_pc`: overwrite the front pc with
`calc_addr_offset(pc, offset)`. -/
def Mars.jump_pc (m : Mars) (offset : Int) : Option (Mars × MarsEvent) :=
  match m.process_queue with
  | [] => none
  | (pid, q) :: rest =>
    match q with
    | [] => none
    | pc :: qs =>
      some ({ m with process_queue := (pid, (calc_addr_offset m.size pc offset) :: qs) :: rest },
            MarsEvent.Jumped)

/-- Push an address onto the back of the current queue; mirrors the
`current_queue_mut().unwrap().push_back(..)` pattern of the source. -/
def Mars.pushCurrentQueue (m : Mars) (addr : Nat) : Option Mars :=
  match m.process_queue with
  | [] => none
  | (pid, q) :: rest =>
    some { m with process_queue := (pid, q ++ [addr]) :: rest }

/-- Mirrors `Mars::step_and_queue_pc`: step the front pc, then push the new pc
onto the back of the same queue (the stepped pc therefore appears twice). -/
def Mars.step_and_queue_pc (m : Mars) : Option (Mars × MarsEvent) :=
  match m.step_pc with
  | none => none
  | some (m1, _) =>
    match m1.pcOpt with
    | none => none
    | some pc =>
      match m1.pushCurrentQueue pc with
      | none => none
      | some m2 => some (m2, MarsEvent.Stepped)

/-- Mirrors `Mars::skip_and_queue_pc`. -/
def Mars.skip_and_queue_pc (m : Mars) : Option (Mars × MarsEvent) :=
  match m.skip_pc with
  | none => none
  | some (m1, _) =>
    match m1.pcOpt with
    | none => none
    | some pc =>
      match m1.pushCurrentQueue pc with
      | none => none
      | some m2 => some (m2, MarsEvent.Skipped)

/-- Mirrors `Mars::jump_and_queue_pc`. -/
def Mars.jump_and_queue_pc (m : Mars) (offset : Int) : Option (Mars × MarsEvent) :=
  match m.jump_pc offset with
  | none => none
  | some (m1, _) =>
    match m1.pcOpt with
    | none => none
    | some pc =>
      match m1.pushCurrentQueue pc with
      | none => none
      | some m2 => some (m2, MarsEvent.Jumped)

/-- The opcode-mode dispatch of `Mars::exec_mov`: which operand fields of
`b` are overwritten from `a` (whole fields, mode included).  Note the source
arms `OpMode::AB => b.a = a.b` and `OpMode::BA => b.b = a.a`. -/
def movUpdate (mode : OpMode) (a b : Instruction) : Instruction :=
  match mode with
  | OpMode.A  => { b with a := a.a }
  | OpMode.B  => { b with b := a.b }
  | OpMode.AB => { b with a := a.b }
  | OpMode.BA => { b with b := a.a }
  | OpMode.F  => { b with a := a.a, b := a.b }
  | OpMode.X  => { b with a := a.b, b := a.a }
  | OpMode.I  => a

/-- The opcode-mode dispatch of `Mars::exec_add`: sums reduced by the Rust
remainder (truncated, `Int.tmod`) with `size as Offset`. -/
def addUpdate (s : Int) (mode : OpMode) (a b : Instruction) : Instruction :=
  match mode with
  | OpMode.A  => { b with a := { b.a with offset := (b.a.offset + a.a.offset).tmod s } }
  | OpMode.B  => { b with b := { b.b with offset := (b.b.offset + a.b.offset).tmod s } }
  | OpMode.BA => { b with a := { b.a with offset := (b.a.offset + a.b.offset).tmod s } }
  | OpMode.AB => { b with b := { b.b with offset := (b.b.offset + a.a.offset).tmod s } }
  | OpMode.F | OpMode.I =>
      { b with a := { b.a with offset := (b.a.offset + a.a.offset).tmod s }
             , b := { b.b with offset := (b.b.offset + a.b.offset).tmod s } }
  | OpMode.X =>
      { b with b := { b.b with offset := (b.b.offset + a.a.offset).tmod s }
             , a := { b.a with offset := (b.a.offset + a.b.offset).tmod s } }

/-- The opcode-mode dispatch of `Mars::exec_sub`: plain subtraction, no
modulus in the source. -/
def subUpdate (mode : OpMode) (a b : Instruction) : Instruction :=
  match mode with
  | OpMode.A  => { b with a := { b.a with offset := b.a.offset - a.a.offset } }
  | OpMode.B  => { b with b := { b.b with offset := b.b.offset - a.b.offset } }
  | OpMode.BA => { b with a := { b.a with offset := b.a.offset - a.b.offset } }
  | OpMode.AB => { b with b := { b.b with offset := b.b.offset - a.a.offset } }
  | OpMode.F | OpMode.I =>
      { b with a := { b.a with offset := b.a.offset - a.a.offset }
             , b := { b.b with offset := b.b.offset - a.b.offset } }
  | OpMode.X =>
      { b with b := { b.b with offset := b.b.offset - a.a.offset }
             , a := { b.a with offset := b.a.offset - a.b.offset } }

/-- The opcode-mode dispatch of `Mars::exec_mul`: plain multiplication, no
modulus in the source. -/
def mulUpdate (mode : OpMode) (a b : Instruction) : Instruction :=
  match mode with
  | OpMode.A  => { b with a := { b.a with offset := b.a.offset * a.a.offset } }
  | OpMode.B  => { b with b := { b.b with offset := b.b.offset * a.b.offset } }
  | OpMode.BA => { b with a := { b.a with offset := b.a.offset * a.b.offset } }
  | OpMode.AB => { b with b := { b.b with offset := b.b.offset * a.a.offset } }
  | OpMode.F | OpMode.I =>
      { b with a := { b.a with offset := b.a.offset * a.a.offset }
             , b := { b.b with offset := b.b.offset * a.b.offset } }
  | OpMode.X =>
      { b with b := { b.b with offset := b.b.offset * a.a.offset }
             , a := { b.a with offset := b.a.offset * a.b.offset } }

/-- The opcode-mode dispatch of `Mars::exec_div`: Rust integer division
(truncated, `Int.tdiv`), which panics on a zero divisor; the source has no
zero guard, so a zero divisor yields `none` (panic). -/
def divUpdate (mode : OpMode) (a b : Instruction) : Option Instruction :=
  match mode with
  | OpMode.A  => if a.a.offset = 0 then none else
      some { b with a := { b.a with offset := b.a.offset.tdiv a.a.offset } }
  | OpMode.B  => if a.b.offset = 0 then none else
      some { b with b := { b.b with offset := b.b.offset.tdiv a.b.offset } }
  | OpMode.BA => if a.b.offset = 0 then none else
      some { b with a := { b.a with offset := b.a.offset.tdiv a.b.offset } }
  | OpMode.AB => if a.a.offset = 0 then none else
      some { b with b := { b.b with offset := b.b.offset.tdiv a.a.offset } }
  | OpMode.F | OpMode.I => if a.a.offset = 0 ∨ a.b.offset = 0 then none else
      some { b with a := { b.a with offset := b.a.offset.tdiv a.a.offset }
                  , b := { b.b with offset := b.b.offset.tdiv a.b.offset } }
  | OpMode.X => if a.a.offset = 0 ∨ a.b.offset = 0 then none else
      some { b with b := { b.b with offset := b.b.offset.tdiv a.a.offset }
                  , a := { b.a with offset := b.a.offset.tdiv a.b.offset } }

/-- The opcode-mode dispatch of `Mars::exec_mod`: Rust remainder (truncated,
`Int.tmod`), which panics on a zero divisor; no zero guard in the source. -/
def modUpdate (mode : OpMode) (a b : Instruction) : Option Instruction :=
  match mode with
  | OpMode.A  => if a.a.offset = 0 then none else
      some { b with a := { b.a with offset := b.a.offset.tmod a.a.offset } }
  | OpMode.B  => if a.b.offset = 0 then none else
      some { b with b := { b.b with offset := b.b.offset.tmod a.b.offset } }
  | OpMode.BA => if a.b.offset = 0 then none else
      some { b with a := { b.a with offset := b.a.offset.tmod a.b.offset } }
  | OpMode.AB => if a.a.offset = 0 then none else
      some { b with b := { b.b with offset := b.b.offset.tmod a.a.offset } }
  | OpMode.F | OpMode.I => if a.a.offset = 0 ∨ a.b.offset = 0 then none else
      some { b with a := { b.a with offset := b.a.offset.tmod a.a.offset }
                  , b := { b.b with offset := b.b.offset.tmod a.b.offset } }
  | OpMode.X => if a.a.offset = 0 ∨ a.b.offset = 0 then none else
      some { b with b := { b.b with offset := b.b.offset.tmod a.a.offset }
                  , a := { b.a with offset := b.a.offset.tmod a.b.offset } }

/-- The `jump` condition of `Mars::exec_jmz`. -/
def jmzCond (mode : OpMode) (b : Instruction) : Bool :=
  match mode with
  | OpMode.A | OpMode.BA => decide (b.a.offset = 0)
  | OpMode.B | OpMode.AB => decide (b.b.offset = 0)
  | OpMode.F | OpMode.I | OpMode.X =>
      decide (b.a.offset = 0) && decide (b.b.offset = 0)

/-- The `jump` condition of `Mars::exec_jmn`. -/
def jmnCond (mode : OpMode) (b : Instruction) : Bool :=
  match mode with
  | OpMode.A | OpMode.BA => decide (b.a.offset ≠ 0)
  | OpMode.B | OpMode.AB => decide (b.b.offset ≠ 0)
  | OpMode.F | OpMode.I | OpMode.X =>
      decide (b.a.offset ≠ 0) && decide (b.b.offset ≠ 0)

/-- The decrement performed by `Mars::exec_djn` on the B operand before it
delegates to `exec_jmn`. -/
def djnUpdate (mode : OpMode) (b : Instruction) : Instruction :=
  match mode with
  | OpMode.A | OpMode.BA => { b with a := { b.a with offset := b.a.offset - 1 } }
  | OpMode.B | OpMode.AB => { b with b := { b.b with offset := b.b.offset - 1 } }
  | OpMode.F | OpMode.I | OpMode.X =>
      { b with a := { b.a with offset := b.a.offset - 1 }
             , b := { b.b with offset := b.b.offset - 1 } }

/-- The `skip` condition of `Mars::exec_seq`, with exactly the operand pairs
of the source: `A` and `BA` compare `a.a` with `b.b`, `AB` compares `a.b`
with `b.a`. -/
def seqCond (mode : OpMode) (a b : Instruction) : Bool :=
  match mode with
  | OpMode.A  => decide (a.a.offset = b.b.offset)
  | OpMode.B  => decide (a.b.offset = b.b.offset)
  | OpMode.BA => decide (a.a.offset = b.b.offset)
  | OpMode.AB => decide (a.b.offset = b.a.offset)
  | OpMode.X  => decide (a.b.offset = b.a.offset) && decide (a.a.offset = b.b.offset)
  | OpMode.F | OpMode.I =>
      decide (a.a.offset = b.a.offset) && decide (a.b.offset = b.b.offset)

/-- The `skip` condition of `Mars::exec_sne`: the pairs of `seqCond`,
negated. -/
def sneCond (mode : OpMode) (a b : Instruction) : Bool :=
  match mode with
  | OpMode.A  => decide (a.a.offset ≠ b.b.offset)
  | OpMode.B  => decide (a.b.offset ≠ b.b.offset)
  | OpMode.BA => decide (a.a.offset ≠ b.b.offset)
  | OpMode.AB => decide (a.b.offset ≠ b.a.offset)
  | OpMode.X  => decide (a.b.offset ≠ b.a.offset) && decide (a.a.offset ≠ b.b.offset)
  | OpMode.F | OpMode.I =>
      decide (a.a.offset ≠ b.a.offset) && decide (a.b.offset ≠ b.b.offset)

/-- The `skip` condition of `Mars::exec_slt`: the pairs of `seqCond`, as
ordered comparisons on the signed offsets. -/
def sltCond (mode : OpMode) (a b : Instruction) : Bool :=
  match mode with
  | OpMode.A  => decide (a.a.offset < b.b.offset)
  | OpMode.B  => decide (a.b.offset < b.b.offset)
  | OpMode.BA => decide (a.a.offset < b.b.offset)
  | OpMode.AB => decide (a.b.offset < b.a.offset)
  | OpMode.X  => decide (a.b.offset < b.a.offset) && decide (a.a.offset < b.b.offset)
  | OpMode.F | OpMode.I =>
      decide (a.a.offset < b.a.offset) && decide (a.b.offset < b.b.offset)

/-- Mirrors `Mars::exec_dat`: return `Terminated(pid)` without touching the
queue (the source does not remove the executing pc here). -/
def Mars.exec_dat (m : Mars) : Option (Mars × MarsEvent) :=
  m.pidOpt.map (fun pid => (m, MarsEvent.Terminated pid))

/-- Mirrors `Mars::exec_mov`: fetch both operand snapshots, combine them with
`movUpdate`, store at the effective B address, step-and-queue. -/
def Mars.exec_mov (m : Mars) : Option (Mars × MarsEvent) :=
  match m.fetch_effective_a, m.fetch_effective_b with
  | some a, some b =>
    match m.store_effective_b (movUpdate m.ir.op.mode a b) with
    | none => none
    | some m1 => m1.step_and_queue_pc
  | _, _ => none

/-- Mirrors `Mars::exec_add`. -/
def Mars.exec_add (m : Mars) : Option (Mars × MarsEvent) :=
  match m.fetch_effective_a, m.fetch_effective_b with
  | some a, some b =>
    match m.store_effective_b (addUpdate (m.size : Int) m.ir.op.mode a b) with
    | none => none
    | some m1 => m1.step_and_queue_pc
  | _, _ => none

/-- Mirrors `Mars::exec_sub`. -/
def Mars.exec_sub (m : Mars) : Option (Mars × MarsEvent) :=
  match m.fetch_effective_a, m.fetch_effective_b with
  | some a, some b =>
    match m.store_effective_b (subUpdate m.ir.op.mode a b) with
    | none => none
    | some m1 => m1.step_and_queue_pc
  | _, _ => none

/-- Mirrors `Mars::exec_mul`. -/
def Mars.exec_mul (m : Mars) : Option (Mars × MarsEvent) :=
  match m.fetch_effective_a, m.fetch_effective_b with
  | some a, some b =>
    match m.store_effective_b (mulUpdate m.ir.op.mode a b) with
    | none => none
    | some m1 => m1.step_and_queue_pc
  | _, _ => none

/-- Mirrors `Mars::exec_div`: a zero divisor propagates the panic. -/
def Mars.exec_div (m : Mars) : Option (Mars × MarsEvent) :=
  match m.fetch_effective_a, m.fetch_effective_b with
  | some a, some b =>
    match divUpdate m.ir.op.mode a b with
    | none => none
    | some b1 =>
      match m.store_effective_b b1 with
      | none => none
      | some m1 => m1.step_and_queue_pc
  | _, _ => none

/-- Mirrors `Mars::exec_mod`: a zero divisor propagates the panic. -/
def Mars.exec_mod (m : Mars) : Option (Mars × MarsEvent) :=
  match m.fetch_effective_a, m.fetch_effective_b with
  | some a, some b =>
    match modUpdate m.ir.op.mode a b with
    | none => none
    | some b1 =>
      match m.store_effective_b b1 with
      | none => none
      | some m1 => m1.step_and_queue_pc
  | _, _ => none

/-- Mirrors `Mars::exec_jmp`: only `Immediate` and `Direct` A-modes are
handled; the indirect modes hit `unimplemented!()` (modelled as `none`).  The
source returns `Jumped` unconditionally after the match. -/
def Mars.exec_jmp (m : Mars) : Option (Mars × MarsEvent) :=
  match m.ir.a.mode with
  | AddressingMode.Immediate | AddressingMode.Direct =>
    match m.jump_and_queue_pc m.ir.a.offset with
    | none => none
    | some (m1, _) => some (m1, MarsEvent.Jumped)
  | _ => none

/-- Mirrors `Mars::exec_jmz`: the jump target is the raw A offset. -/
def Mars.exec_jmz (m : Mars) : Option (Mars × MarsEvent) :=
  match m.fetch_effective_b with
  | none => none
  | some b =>
    if jmzCond m.ir.op.mode b then m.jump_and_queue_pc m.ir.a.offset
    else m.step_and_queue_pc

/-- Mirrors `Mars::exec_jmn`. -/
def Mars.exec_jmn (m : Mars) : Option (Mars × MarsEvent) :=
  match m.fetch_effective_b with
  | none => none
  | some b =>
    if jmnCond m.ir.op.mode b then m.jump_and_queue_pc m.ir.a.offset
    else m.step_and_queue_pc

/-- Mirrors `Mars::exec_djn`: decrement the B operand, write it back, then
behave as `exec_jmn` on the mutated state. -/
def Mars.exec_djn (m : Mars) : Option (Mars × MarsEvent) :=
  match m.fetch_effective_b with
  | none => none
  | some b =>
    match m.store_effective_b (djnUpdate m.ir.op.mode b) with
    | none => none
    | some m1 => m1.exec_jmn

/-- Mirrors `Mars::exec_spl`: the guard compares `process_count()` (the fold
seeded with 1) against `max_processes`; on success the effective A address is
pushed onto the current queue and the pc is stepped-and-queued. -/
def Mars.exec_spl (m : Mars) : Option (Mars × MarsEvent) :=
  if m.process_count < m.max_processes then
    match m.effective_addr_a with
    | none => none
    | some target =>
      match m.pushCurrentQueue target with
      | none => none
      | some m1 =>
        match m1.step_and_queue_pc with
        | none => none
        | some (m2, _) => some (m2, MarsEvent.Split)
  else
    m.step_and_queue_pc

/-- Mirrors `Mars::exec_seq`. -/
def Mars.exec_seq (m : Mars) : Option (Mars × MarsEvent) :=
  match m.fetch_effective_a, m.fetch_effective_b with
  | some a, some b =>
    if seqCond m.ir.op.mode a b then m.skip_and_queue_pc else m.step_and_queue_pc
  | _, _ => none

/-- Mirrors `Mars::exec_sne`. -/
def Mars.exec_sne (m : Mars) : Option (Mars × MarsEvent) :=
  match m.fetch_effective_a, m.fetch_effective_b with
  | some a, some b =>
    if sneCond m.ir.op.mode a b then m.skip_and_queue_pc else m.step_and_queue_pc
  | _, _ => none

/-- Mirrors `Mars::exec_slt`. -/
def Mars.exec_slt (m : Mars) : Option (Mars × MarsEvent) :=
  match m.fetch_effective_a, m.fetch_effective_b with
  | some a, some b =>
    if sltCond m.ir.op.mode a b then m.skip_and_queue_pc else m.step_and_queue_pc
  | _, _ => none

/-- Mirrors `Mars::exec_ldp`: `unimplemented!()` in the source. -/
def Mars.exec_ldp (_ : Mars) : Option (Mars × MarsEvent) := none

/-- Mirrors `Mars::exec_stp`: `unimplemented!()` in the source. -/
def Mars.exec_stp (_ : Mars) : Option (Mars × MarsEvent) := none

/-- Mirrors `Mars::exec_nop`. -/
def Mars.exec_nop (m : Mars) : Option (Mars × MarsEvent) :=
  m.step_and_queue_pc

/-- Mirrors `Mars::execute`: dispatch on the opcode of the instruction
register. -/
def Mars.execute (m : Mars) : Option (Mars × MarsEvent) :=
  match m.ir.op.code with
  | OpCode.Dat => m.exec_dat
  | OpCode.Mov => m.exec_mov
  | OpCode.Add => m.exec_add
  | OpCode.Sub => m.exec_sub
  | OpCode.Mul => m.exec_mul
  | OpCode.Div => m.exec_div
  | OpCode.Mod => m.exec_mod
  | OpCode.Jmp => m.exec_jmp
  | OpCode.Jmz => m.exec_jmz
  | OpCode.Jmn => m.exec_jmn
  | OpCode.Djn => m.exec_djn
  | OpCode.Spl => m.exec_spl
  | OpCode.Seq => m.exec_seq
  | OpCode.Sne => m.exec_sne
  | OpCode.Slt => m.exec_slt
  | OpCode.Ldp => m.exec_ldp
  | OpCode.Stp => m.exec_stp
  | OpCode.Nop => m.exec_nop

/-- Mirrors the pre-decrement phase of `Mars::step`: when either operand uses
a pre-decrement mode, both direct targets are fetched, decremented as their
modes dictate, and written back A first then B (so that with aliased targets
the B write wins, exactly as in the source). -/
def Mars.predecPhase (m : Mars) (pc : Nat) (am bm : AddressingMode) : Mars :=
  if am = AddressingMode.AIndirectPreDecrement ∨
     am = AddressingMode.BIndirectPreDecrement ∨
     bm = AddressingMode.AIndirectPreDecrement ∨
     bm = AddressingMode.BIndirectPreDecrement then
    let a_addr := calc_addr_offset m.size pc m.ir.a.offset
    let b_addr := calc_addr_offset m.size pc m.ir.b.offset
    let a := m.fetch a_addr
    let b := m.fetch b_addr
    let a :=
      match am with
      | AddressingMode.AIndirectPreDecrement => { a with a := { a.a with offset := a.a.offset - 1 } }
      | AddressingMode.BIndirectPreDecrement => { a with b := { a.b with offset := a.b.offset - 1 } }
      | _ => a
    let b :=
      match bm with
      | AddressingMode.AIndirectPreDecrement => { b with a := { b.a with offset := b.a.offset - 1 } }
      | AddressingMode.BIndirectPreDecrement => { b with b := { b.b with offset := b.b.offset - 1 } }
      | _ => b
    (m.store a_addr a).store b_addr b
  else m

/-- Mirrors the post-increment phase of `Mars::step`, symmetric to
`predecPhase` with increments after execution. -/
def Mars.postincPhase (m : Mars) (pc : Nat) (am bm : AddressingMode) : Mars :=
  if am = AddressingMode.AIndirectPostIncrement ∨
     am = AddressingMode.BIndirectPostIncrement ∨
     bm = AddressingMode.AIndirectPostIncrement ∨
     bm = AddressingMode.BIndirectPostIncrement then
    let a_addr := calc_addr_offset m.size pc m.ir.a.offset
    let b_addr := calc_addr_offset m.size pc m.ir.b.offset
    let a := m.fetch a_addr
    let b := m.fetch b_addr
    let a :=
      match am with
      | AddressingMode.AIndirectPostIncrement => { a with a := { a.a with offset := a.a.offset + 1 } }
      | AddressingMode.BIndirectPostIncrement => { a with b := { a.b with offset := a.b.offset + 1 } }
      | _ => a
    let b :=
      match bm with
      | AddressingMode.AIndirectPostIncrement => { b with a := { b.a with offset := b.a.offset + 1 } }
      | AddressingMode.BIndirectPostIncrement => { b with b := { b.b with offset := b.b.offset + 1 } }
      | _ => b
    (m.store a_addr a).store b_addr b
  else m

/-- The schedule rotation of `Mars::step`: when the current queue is
non-empty, pop the front schedule entry and push it to the back; `none`
models the `unwrap` panic on an empty schedule. -/
def Mars.rotateOnce (m : Mars) : Option Mars :=
  match m.process_queue with
  | [] => none
  | (pid, q) :: rest =>
    some (if q.isEmpty then m else { m with process_queue := rest ++ [(pid, q)] })

/-- The tail of `Mars::step` after the rotation: the `Finished` check against
a schedule of at most one entry, then a second rotation of the schedule and
the cycle increment, returning the event produced by execution. -/
def Mars.endStep (m : Mars) (ev : MarsEvent) : Option (Mars × Except Unit MarsEvent) :=
  if m.process_queue.length ≤ 1 then
    some ({ m with halted := true }, Except.ok MarsEvent.Finished)
  else
    match m.process_queue with
    | [] => none
    | en :: rest2 =>
      some ({ m with process_queue := rest2 ++ [en], cycle := m.cycle + 1 },
            Except.ok ev)

/-- Mirrors `Mars::step`.  In order: the halted guard (`AlreadyHalted`,
modelled as `Except.error ()`), the cycle-cap guard (returning `Tied`),
instruction fetch into the register, the pre-decrement phase, execution, the
post-increment phase, one rotation of the schedule when the current queue is
non-empty, and `endStep` (the `Finished` check, a second rotation, the cycle
increment).  `none` models the panics of the `unwrap` calls. -/
def Mars.step (m0 : Mars) : Option (Mars × Except Unit MarsEvent) :=
  if m0.halted then some (m0, Except.error ()) else
  if m0.max_cycles ≤ m0.cycle then
    some ({ m0 with halted := true }, Except.ok MarsEvent.Tied)
  else
    match m0.pcOpt with
    | none => none
    | some pc =>
      match (Mars.predecPhase { m0 with ir := m0.fetch pc } pc
              (m0.fetch pc).a.mode (m0.fetch pc).b.mode).execute with
      | none => none
      | some (m3, ev) =>
        match (m3.postincPhase pc (m0.fetch pc).a.mode (m0.fetch pc).b.mode).rotateOnce with
        | none => none
        | some m5 => m5.endStep ev

/-- Iterate `Mars.step` requiring every step to succeed with an `ok` event;
`none` as soon as a step panics or returns the `AlreadyHalted` error. -/
def Mars.stepsOk : Nat → Mars → Option Mars
  | 0, m => some m
  | n + 1, m =>
    match m.step with
    | some (m1, Except.ok _) => Mars.stepsOk n m1
    | _ => none

/-- The `Core` runtime state, from the struct `Core` in `core.rs` (the older
variant of the runtime, which the loader claims cite).  Unlike `Mars`, the pc
of the running process is held outside its queue; note that `Core` holds no
`min_distance` field at all. -/
structure Core where
  memory        : List Instruction
  current_pid   : Nat
  pc            : Nat
  ir            : Instruction
  current_queue : List Nat
  current_cycle : Nat
  process_queue : List (Nat × List Nat)
  pspace        : List (Nat × List Instruction)
  finished      : Bool
  max_length    : Nat
  pspace_size   : Nat
  version       : Nat
  max_processes : Nat
  max_cycles    : Nat
deriving DecidableEq, Repr

/-- Mirrors `Core::validate` (and the identical `Mars::validate`): the length
check is `programs.iter().any(|prog| prog.len() <= max_length)` — the fold is
`any`, not `all` — and the spacing check is the constant `true` under a
`TODO: actually check spacing` comment. -/
def Core.validate (c : Core)
    (programs : List (Nat × Option Nat × List Instruction)) : Except Unit Unit :=
  if programs.any (fun p => decide (p.2.2.length ≤ c.max_length)) then
    Except.ok ()
  else
    Except.error ()

/-- Mirrors the copy loop of `Core::reset`:
`self.memory[i + base] = prog[i]` for each instruction; the index is not
reduced modulo the size, so a program reaching past the end of memory panics
(modelled as `none`). -/
def writeProg : List Instruction → Nat → List Instruction → Option (List Instruction)
  | mem, _, [] => some mem
  | mem, i, ins :: rest =>
    if i < mem.length then writeProg (mem.set i ins) (i + 1) rest
    else none

/-- The copy loop of `Core::reset` over the whole program batch. -/
def writeAll : List Instruction → List (Nat × Option Nat × List Instruction) →
    Option (List Instruction)
  | mem, [] => some mem
  | mem, (base, _, prog) :: rest =>
    match writeProg mem base prog with
    | none => none
    | some mem1 => writeAll mem1 rest

/-- Mirrors `Core::reset`: validate, then clear the schedule and the cycle,
zero the memory, copy each program in at its base, rebuild the schedule by
pushing `(pid, [base])` entries to the front, and finally pop the back entry
to become the current pid/queue/pc.  Validation failure returns the error
with the state untouched, exactly as the early return of the source. -/
def Core.reset (c : Core) (programs : List (Nat × Option Nat × List Instruction)) :
    Option (Core × Except Unit Unit) :=
  match c.validate programs with
  | Except.error _ => some (c, Except.error ())
  | Except.ok _ =>
    let c1 := { c with process_queue := ([] : List (Nat × List Nat)),
                       current_cycle := 0,
                       memory := List.replicate c.memory.length defaultInstruction }
    match writeAll c1.memory programs with
    | none => none
    | some mem =>
      let pq := (programs.enum.map (fun p => (p.1, [p.2.1]))).reverse
      let entry := pq.getLast?.getD (0, [])
      some ({ c1 with memory := mem,
                      process_queue := pq.dropLast,
                      current_pid := entry.1,
                      current_queue := entry.2.dropLast,
                      pc := entry.2.getLast?.getD 0,
                      finished := false },
            Except.ok ())

/-- Scaffolding for concrete runs: a `Mars` with the builder defaults for the
limits (`max_length` 100, `min_distance` 100, version 80, p-space 500) and the
given memory, schedule, process cap and cycle cap. -/
def mkState (mem : List Instruction) (pq : List (Nat × List Nat))
    (maxp maxc : Nat) : Mars :=
  { memory := mem, ir := defaultInstruction, cycle := 0, process_queue := pq,
    pspace := [], halted := false, max_length := 100, min_distance := 100,
    version := 80, pspace_size := 500, max_processes := maxp, max_cycles := maxc }

/-- Scaffolding: a plain data cell `DAT.F $av, $bv` used as operand storage in
the concrete runs. -/
def datCell (av bv : Int) : Instruction :=
  { op := { code := OpCode.Dat, mode := OpMode.F }
  , a := { mode := AddressingMode.Direct, offset := av }
  , b := { mode := AddressingMode.Direct, offset := bv } }

/-- The imp: `MOV.I $0, $1`. -/
def impInstr : Instruction :=
  { op := { code := OpCode.Mov, mode := OpMode.I }
  , a := { mode := AddressingMode.Direct, offset := 0 }
  , b := { mode := AddressingMode.Direct, offset := 1 } }

/-- The control fields of a `Mars` state that the scheduler owns: cycle,
halted flag and cycle cap.  No execute handler touches them; the frame lemmas
below make that precise. -/
def Mars.ctl (m : Mars) : Nat × Bool × Nat := (m.cycle, m.halted, m.max_cycles)

/-- Modelled from the spec (section 3 Lifecycle, section 4.6): the state after
loading the single program `MOV.I $0, $1` at address 0 under the builder
defaults (`core_size` 8000, `max_processes` 8000, `max_cycles` 80000).
`Mars::load_batch` and `Mars::reset` are `unimplemented!()` in the source, so
the loaded state itself is built from the spec: the program written at its
base, one process seeded at the base, cycle 0, halted cleared. -/
def impMars : Mars :=
  mkState ((List.replicate 8000 defaultInstruction).set 0 impInstr) [(0, [0])] 8000 80000

/-- Two imps loaded at 0 and 2 in a 4-cell core with `max_cycles = 1`; the
loaded state follows the same spec shape as `impMars`. -/
def tieSt : Mars :=
  mkState [impInstr, defaultInstruction, impInstr, defaultInstruction]
    [(0, [0]), (1, [2])] 8000 1

/-- The state reached from `tieSt` by one successful step: warrior 0 copied
the imp to cell 1 and its stepped pc 1 appears twice in its queue; cycle 1. -/
def tieSt1 : Mars :=
  { mkState [impInstr, impInstr, impInstr, defaultInstruction]
      [(0, [1, 1]), (1, [2])] 8000 1 with
    ir := impInstr, cycle := 1 }

/-- The state reached from `tieSt` by two successful steps: the second step
enters at the cycle cap and halts with `Tied`. -/
def tieSt2 : Mars := { tieSt1 with halted := true }

/-- A halted state, for the witness of the halted-step claim. -/
def haltedMars : Mars :=
  { mkState [defaultInstruction] [] 8000 100 with halted := true }

/-- `MOV.AB $1, $2` at 0 with data cells `DAT $1, $2` and `DAT $3, $4`; a
second warrior sits at 4 so the schedule keeps two entries. -/
def movSt : Mars :=
  mkState [ { op := { code := OpCode.Mov, mode := OpMode.AB }
            , a := { mode := AddressingMode.Direct, offset := 1 }
            , b := { mode := AddressingMode.Direct, offset := 2 } }
          , datCell 1 2, datCell 3 4, defaultInstruction
          , impInstr, defaultInstruction ] [(0, [0]), (1, [4])] 8000 100

/-- `DIV.A #0, $1` at 0: the effective A operand is the instruction itself,
whose A offset is zero, so the selected divisor half is zero. -/
def divSt : Mars :=
  mkState [ { op := { code := OpCode.Div, mode := OpMode.A }
            , a := { mode := AddressingMode.Immediate, offset := 0 }
            , b := { mode := AddressingMode.Direct, offset := 1 } }
          , datCell 5 6 ] [(0, [0])] 8000 100

/-- `SEQ.A $1, $2` at 0 with operands whose A halves are equal (`1` and `1`)
but whose cross halves differ (`b.b = 2`); a second warrior sits at 4. -/
def seqSt : Mars :=
  mkState [ { op := { code := OpCode.Seq, mode := OpMode.A }
            , a := { mode := AddressingMode.Direct, offset := 1 }
            , b := { mode := AddressingMode.Direct, offset := 2 } }
          , datCell 1 0, datCell 1 2, defaultInstruction
          , impInstr, defaultInstruction ] [(0, [0]), (1, [4])] 8000 100

/-- `SPL.B $0, $0` at 0 with a second warrior at 3 and `max_processes = 3`:
the spec total (sum of queue lengths) is 2, strictly below the cap. -/
def splSt : Mars :=
  mkState [ { op := { code := OpCode.Spl, mode := OpMode.B }
            , a := { mode := AddressingMode.Direct, offset := 0 }
            , b := { mode := AddressingMode.Direct, offset := 0 } }
          , defaultInstruction, defaultInstruction
          , impInstr, defaultInstruction ] [(0, [0]), (1, [3])] 3 100

/-- `SUB.A $1, $2` at 0 in a 10-cell core with operand A halves `1` and `0`:
the stored result offset is `0 - 1 = -1`. -/
def subSt : Mars :=
  mkState [ { op := { code := OpCode.Sub, mode := OpMode.A }
            , a := { mode := AddressingMode.Direct, offset := 1 }
            , b := { mode := AddressingMode.Direct, offset := 2 } }
          , datCell 1 0, datCell 0 0, defaultInstruction
          , impInstr, defaultInstruction, defaultInstruction, defaultInstruction
          , defaultInstruction, defaultInstruction ] [(0, [0]), (1, [4])] 8000 100

/-- A `Core` with the builder default limits (`max_length` 100) over a
200-cell memory, used for the loader claim. -/
def defaultCore : Core :=
  { memory := List.replicate 200 defaultInstruction, current_pid := 0, pc := 0,
    ir := defaultInstruction, current_queue := [], current_cycle := 0,
    process_queue := [], pspace := [], finished := true, max_length := 100,
    pspace_size := 500, version := 80, max_processes := 8000, max_cycles := 80000 }

/-- A program one instruction longer than the default `max_length` of 100. -/
def longProg : List Instruction := List.replicate 101 defaultInstruction

/-- Intermediate state of the imp scenario: the instruction register loaded
with the imp. -/
def impMars1 : Mars := { impMars with ir := impInstr }

/-- The memory of `impMars`. -/
def memM : List Instruction := (List.replicate 8000 defaultInstruction).set 0 impInstr

/-- The memory of `impMars` after the imp copied itself to cell 1. -/
def memM2 : List Instruction := memM.set 1 impInstr

/-- Intermediate state of the imp scenario after the `MOV` store. -/
def impMars2 : Mars := { impMars1 with memory := memM2 }

/-- Intermediate state of the imp scenario after step-and-queue: the stepped
pc 1 appears twice in the queue. -/
def impMars3 : Mars := { impMars2 with process_queue := [(0, [1, 1])] }

/-- The final state of the first step of the imp scenario: halted, with the
cycle still 0 (the `Finished` early return skips the increment). -/
def impMarsF : Mars := { impMars3 with halted := true }

theorem store_ctl (m : Mars) (a : Nat) (i : Instruction) :
    (m.store a i).ctl = m.ctl := rfl

theorem step_pc_ctl {m m1 : Mars} {e : MarsEvent}
    (h : m.step_pc = some (m1, e)) : m1.ctl = m.ctl := by
  unfold Mars.step_pc at h
  split at h
  · exact absurd h (by simp)
  · split at h
    · exact absurd h (by simp)
    · simp only [Option.some.injEq, Prod.mk.injEq] at h
      obtain ⟨h1, -⟩ := h
      subst h1
      rfl

theorem skip_pc_ctl {m m1 : Mars} {e : MarsEvent}
    (h : m.skip_pc = some (m1, e)) : m1.ctl = m.ctl := by
  unfold Mars.skip_pc at h
  split at h
  · exact absurd h (by simp)
  · split at h
    · exact absurd h (by simp)
    · simp only [Option.some.injEq, Prod.mk.injEq] at h
      obtain ⟨h1, -⟩ := h
      subst h1
      rfl

theorem jump_pc_ctl {m m1 : Mars} {e : MarsEvent} {o : Int}
    (h : m.jump_pc o = some (m1, e)) : m1.ctl = m.ctl := by
  unfold Mars.jump_pc at h
  split at h
  · exact absurd h (by simp)
  · split at h
    · exact absurd h (by simp)
    · simp only [Option.some.injEq, Prod.mk.injEq] at h
      obtain ⟨h1, -⟩ := h
      subst h1
      rfl

theorem pushCurrentQueue_ctl {m m1 : Mars} {a : Nat}
    (h : m.pushCurrentQueue a = some m1) : m1.ctl = m.ctl := by
  unfold Mars.pushCurrentQueue at h
  split at h
  · exact absurd h (by simp)
  · simp only [Option.some.injEq] at h
    subst h
    rfl

theorem step_and_queue_pc_ctl {m m1 : Mars} {e : MarsEvent}
    (h : m.step_and_queue_pc = some (m1, e)) : m1.ctl = m.ctl := by
  unfold Mars.step_and_queue_pc at h
  split at h
  · exact absurd h (by simp)
  · rename_i ma hstep
    split at h
    · exact absurd h (by simp)
    · split at h
      · exact absurd h (by simp)
      · rename_i m2 hpush
        simp only [Option.some.injEq, Prod.mk.injEq] at h
        obtain ⟨h1, -⟩ := h
        subst h1
        exact (pushCurrentQueue_ctl hpush).trans (step_pc_ctl hstep)

theorem skip_and_queue_pc_ctl {m m1 : Mars} {e : MarsEvent}
    (h : m.skip_and_queue_pc = some (m1, e)) : m1.ctl = m.ctl := by
  unfold Mars.skip_and_queue_pc at h
  split at h
  · exact absurd h (by simp)
  · rename_i ma hskip
    split at h
    · exact absurd h (by simp)
    · split at h
      · exact absurd h (by simp)
      · rename_i m2 hpush
        simp only [Option.some.injEq, Prod.mk.injEq] at h
        obtain ⟨h1, -⟩ := h
        subst h1
        exact (pushCurrentQueue_ctl hpush).trans (skip_pc_ctl hskip)

theorem jump_and_queue_pc_ctl {m m1 : Mars} {e : MarsEvent} {o : Int}
    (h : m.jump_and_queue_pc o = some (m1, e)) : m1.ctl = m.ctl := by
  unfold Mars.jump_and_queue_pc at h
  split at h
  · exact absurd h (by simp)
  · rename_i ma hjump
    split at h
    · exact absurd h (by simp)
    · split at h
      · exact absurd h (by simp)
      · rename_i m2 hpush
        simp only [Option.some.injEq, Prod.mk.injEq] at h
        obtain ⟨h1, -⟩ := h
        subst h1
        exact (pushCurrentQueue_ctl hpush).trans (jump_pc_ctl hjump)

theorem store_effective_b_ctl {m m1 : Mars} {i : Instruction}
    (h : m.store_effective_b i = some m1) : m1.ctl = m.ctl := by
  unfold Mars.store_effective_b at h
  simp only [Option.map_eq_some'] at h
  obtain ⟨ad, -, h2⟩ := h
  subst h2
  rfl


theorem exec_dat_ctl {m m1 : Mars} {e : MarsEvent}
    (h : m.exec_dat = some (m1, e)) : m1.ctl = m.ctl := by
  unfold Mars.exec_dat at h
  simp only [Option.map_eq_some'] at h
  obtain ⟨pid, -, h2⟩ := h
  cases h2
  rfl

theorem exec_mov_ctl {m m1 : Mars} {e : MarsEvent}
    (h : m.exec_mov = some (m1, e)) : m1.ctl = m.ctl := by
  unfold Mars.exec_mov at h
  repeat' split at h
  all_goals try exact Option.noConfusion h
  all_goals exact (step_and_queue_pc_ctl h).trans (store_effective_b_ctl (by assumption))

theorem exec_add_ctl {m m1 : Mars} {e : MarsEvent}
    (h : m.exec_add = some (m1, e)) : m1.ctl = m.ctl := by
  unfold Mars.exec_add at h
  repeat' split at h
  all_goals try exact Option.noConfusion h
  all_goals exact (step_and_queue_pc_ctl h).trans (store_effective_b_ctl (by assumption))

theorem exec_sub_ctl {m m1 : Mars} {e : MarsEvent}
    (h : m.exec_sub = some (m1, e)) : m1.ctl = m.ctl := by
  unfold Mars.exec_sub at h
  repeat' split at h
  all_goals try exact Option.noConfusion h
  all_goals exact (step_and_queue_pc_ctl h).trans (store_effective_b_ctl (by assumption))

theorem exec_mul_ctl {m m1 : Mars} {e : MarsEvent}
    (h : m.exec_mul = some (m1, e)) : m1.ctl = m.ctl := by
  unfold Mars.exec_mul at h
  repeat' split at h
  all_goals try exact Option.noConfusion h
  all_goals exact (step_and_queue_pc_ctl h).trans (store_effective_b_ctl (by assumption))

theorem exec_div_ctl {m m1 : Mars} {e : MarsEvent}
    (h : m.exec_div = some (m1, e)) : m1.ctl = m.ctl := by
  unfold Mars.exec_div at h
  repeat' split at h
  all_goals try exact Option.noConfusion h
  all_goals exact (step_and_queue_pc_ctl h).trans (store_effective_b_ctl (by assumption))

theorem exec_mod_ctl {m m1 : Mars} {e : MarsEvent}
    (h : m.exec_mod = some (m1, e)) : m1.ctl = m.ctl := by
  unfold Mars.exec_mod at h
  repeat' split at h
  all_goals try exact Option.noConfusion h
  all_goals exact (step_and_queue_pc_ctl h).trans (store_effective_b_ctl (by assumption))

theorem exec_jmp_ctl {m m1 : Mars} {e : MarsEvent}
    (h : m.exec_jmp = some (m1, e)) : m1.ctl = m.ctl := by
  unfold Mars.exec_jmp at h
  repeat' split at h
  all_goals try exact Option.noConfusion h
  all_goals cases h
  all_goals exact jump_and_queue_pc_ctl (by assumption)

theorem exec_jmz_ctl {m m1 : Mars} {e : MarsEvent}
    (h : m.exec_jmz = some (m1, e)) : m1.ctl = m.ctl := by
  unfold Mars.exec_jmz at h
  repeat' split at h
  all_goals try exact Option.noConfusion h
  all_goals try exact jump_and_queue_pc_ctl h
  all_goals exact step_and_queue_pc_ctl h

theorem exec_jmn_ctl {m m1 : Mars} {e : MarsEvent}
    (h : m.exec_jmn = some (m1, e)) : m1.ctl = m.ctl := by
  unfold Mars.exec_jmn at h
  repeat' split at h
  all_goals try exact Option.noConfusion h
  all_goals try exact jump_and_queue_pc_ctl h
  all_goals exact step_and_queue_pc_ctl h

theorem exec_djn_ctl {m m1 : Mars} {e : MarsEvent}
    (h : m.exec_djn = some (m1, e)) : m1.ctl = m.ctl := by
  unfold Mars.exec_djn at h
  repeat' split at h
  all_goals try exact Option.noConfusion h
  all_goals exact (exec_jmn_ctl h).trans (store_effective_b_ctl (by assumption))

theorem exec_spl_ctl {m m1 : Mars} {e : MarsEvent}
    (h : m.exec_spl = some (m1, e)) : m1.ctl = m.ctl := by
  unfold Mars.exec_spl at h
  repeat' split at h
  all_goals try exact Option.noConfusion h
  all_goals try exact step_and_queue_pc_ctl h
  all_goals cases h
  all_goals exact (step_and_queue_pc_ctl (by assumption)).trans (pushCurrentQueue_ctl (by assumption))

theorem exec_seq_ctl {m m1 : Mars} {e : MarsEvent}
    (h : m.exec_seq = some (m1, e)) : m1.ctl = m.ctl := by
  unfold Mars.exec_seq at h
  repeat' split at h
  all_goals try exact Option.noConfusion h
  all_goals try exact skip_and_queue_pc_ctl h
  all_goals exact step_and_queue_pc_ctl h

theorem exec_sne_ctl {m m1 : Mars} {e : MarsEvent}
    (h : m.exec_sne = some (m1, e)) : m1.ctl = m.ctl := by
  unfold Mars.exec_sne at h
  repeat' split at h
  all_goals try exact Option.noConfusion h
  all_goals try exact skip_and_queue_pc_ctl h
  all_goals exact step_and_queue_pc_ctl h

theorem exec_slt_ctl {m m1 : Mars} {e : MarsEvent}
    (h : m.exec_slt = some (m1, e)) : m1.ctl = m.ctl := by
  unfold Mars.exec_slt at h
  repeat' split at h
  all_goals try exact Option.noConfusion h
  all_goals try exact skip_and_queue_pc_ctl h
  all_goals exact step_and_queue_pc_ctl h

theorem exec_nop_ctl {m m1 : Mars} {e : MarsEvent}
    (h : m.exec_nop = some (m1, e)) : m1.ctl = m.ctl :=
  step_and_queue_pc_ctl h

theorem execute_ctl {m m1 : Mars} {e : MarsEvent}
    (h : m.execute = some (m1, e)) : m1.ctl = m.ctl := by
  unfold Mars.execute at h
  split at h
  case _ => exact exec_dat_ctl h
  case _ => exact exec_mov_ctl h
  case _ => exact exec_add_ctl h
  case _ => exact exec_sub_ctl h
  case _ => exact exec_mul_ctl h
  case _ => exact exec_div_ctl h
  case _ => exact exec_mod_ctl h
  case _ => exact exec_jmp_ctl h
  case _ => exact exec_jmz_ctl h
  case _ => exact exec_jmn_ctl h
  case _ => exact exec_djn_ctl h
  case _ => exact exec_spl_ctl h
  case _ => exact exec_seq_ctl h
  case _ => exact exec_sne_ctl h
  case _ => exact exec_slt_ctl h
  case _ => exact Option.noConfusion h
  case _ => exact Option.noConfusion h
  case _ => exact exec_nop_ctl h

theorem predecPhase_ctl (m : Mars) (pc : Nat) (am bm : AddressingMode) :
    (m.predecPhase pc am bm).ctl = m.ctl := by
  unfold Mars.predecPhase
  split
  · rfl
  · rfl

theorem postincPhase_ctl (m : Mars) (pc : Nat) (am bm : AddressingMode) :
    (m.postincPhase pc am bm).ctl = m.ctl := by
  unfold Mars.postincPhase
  split
  · rfl
  · rfl

theorem rotateOnce_ctl {m m1 : Mars} (h : m.rotateOnce = some m1) :
    m1.ctl = m.ctl := by
  unfold Mars.rotateOnce at h
  repeat' split at h
  all_goals try exact Option.noConfusion h
  all_goals simp only [Option.some.injEq] at h
  all_goals subst h
  all_goals rfl

theorem ctl_cycle {m m1 : Mars} (h : m1.ctl = m.ctl) : m1.cycle = m.cycle :=
  congrArg Prod.fst h

theorem ctl_halted {m m1 : Mars} (h : m1.ctl = m.ctl) : m1.halted = m.halted :=
  congrArg (fun p => p.2.1) h

theorem ctl_max_cycles {m m1 : Mars} (h : m1.ctl = m.ctl) :
    m1.max_cycles = m.max_cycles :=
  congrArg (fun p => p.2.2) h

theorem endStep_cases {m m1 : Mars} {ev : MarsEvent} {r : Except Unit MarsEvent}
    (h : m.endStep ev = some (m1, r)) :
    m1.max_cycles = m.max_cycles ∧
      (m1.halted = true ∨ (m1.halted = m.halted ∧ m1.cycle = m.cycle + 1)) := by
  unfold Mars.endStep at h
  repeat' split at h
  all_goals try exact Option.noConfusion h
  all_goals cases h
  · exact ⟨rfl, Or.inl rfl⟩
  · exact ⟨rfl, Or.inr ⟨rfl, rfl⟩⟩

/-- Any successful step preserves the cycle cap and either ends halted or
increments the cycle by exactly one without touching the halted flag. -/
theorem step_ok_cases {m m1 : Mars} {e : MarsEvent}
    (h : m.step = some (m1, Except.ok e)) :
    m1.max_cycles = m.max_cycles ∧
      (m1.halted = true ∨ (m1.halted = m.halted ∧ m1.cycle = m.cycle + 1)) := by
  unfold Mars.step at h
  split at h
  · simp at h
  · split at h
    · cases h
      exact ⟨rfl, Or.inl rfl⟩
    · split at h
      · exact Option.noConfusion h
      · rename_i pc hpc
        split at h
        · exact Option.noConfusion h
        · rename_i m3 ev hexec
          split at h
          · exact Option.noConfusion h
          · rename_i m5 hrot
            have hctl : m5.ctl = m.ctl :=
              ((rotateOnce_ctl hrot).trans (postincPhase_ctl m3 pc _ _)).trans
                ((execute_ctl hexec).trans (predecPhase_ctl _ pc _ _))
            obtain ⟨hmax, hdisj⟩ := endStep_cases h
            refine ⟨hmax.trans (ctl_max_cycles hctl), ?_⟩
            rcases hdisj with h1 | ⟨h1, h2⟩
            · exact Or.inl h1
            · exact Or.inr ⟨h1.trans (ctl_halted hctl),
                by rw [h2, ctl_cycle hctl]⟩

/-- A step taken on a halted state returns the error and leaves the state
untouched (the halted guard is the first statement of `Mars::step`). -/
theorem step_halted_eq {m : Mars} (h : m.halted = true) :
    m.step = some (m, Except.error ()) := by
  unfold Mars.step
  rw [h]
  rfl

/-- A step entered at or beyond the cycle cap halts the machine and reports
`Tied`. -/
theorem step_tied {m : Mars} (h1 : m.halted = false) (h2 : m.max_cycles ≤ m.cycle) :
    m.step = some ({ m with halted := true }, Except.ok MarsEvent.Tied) := by
  unfold Mars.step
  rw [h1]
  simp [h2]

/-- Iterating successful steps one past the remaining cycle budget always
ends halted. -/
theorem stepsOk_halts {n : Nat} : ∀ {m m2 : Mars},
    Mars.stepsOk (n + 1) m = some m2 → m.max_cycles ≤ m.cycle + n →
    m2.halted = true := by
  induction n with
  | zero =>
    intro m m2 h hle
    unfold Mars.stepsOk at h
    split at h
    · rename_i m1 e hstep
      unfold Mars.stepsOk at h
      cases h
      by_cases hh : m.halted = true
      · rw [step_halted_eq hh] at hstep
        simp at hstep
      · rw [step_tied (Bool.not_eq_true _ ▸ hh) (by omega)] at hstep
        cases hstep
        rfl
    · exact Option.noConfusion h
  | succ k ih =>
    intro m m2 h hle
    unfold Mars.stepsOk at h
    split at h
    · rename_i m1 e hstep
      obtain ⟨hmax, hdisj⟩ := step_ok_cases hstep
      rcases hdisj with h1 | ⟨h1, h2⟩
      · unfold Mars.stepsOk at h
        rw [step_halted_eq h1] at h
        exact Option.noConfusion h
      · exact ih h (by omega)
    · exact Option.noConfusion h


theorem Mars.fetch_eq (m : Mars) (addr : Nat) :
    m.fetch addr = (m.memory[addr % m.memory.length]?).getD defaultInstruction := by
  unfold Mars.fetch Mars.size
  rw [List.getD_eq_getElem?_getD]

theorem memM_len : memM.length = 8000 := by
  rw [memM, List.length_set, List.length_replicate]

theorem memM_get0 : memM[(0 : Nat)]? = some impInstr := by
  rw [memM, List.getElem?_set_self (by rw [List.length_replicate]; norm_num)]

theorem memM_get1 : memM[(1 : Nat)]? = some defaultInstruction := by
  rw [memM, List.getElem?_set_ne (by norm_num), List.getElem?_replicate]
  norm_num

theorem impMars_f0 : impMars.fetch 0 = impInstr := by
  rw [Mars.fetch_eq, show impMars.memory = memM from rfl, memM_len, Nat.zero_mod, memM_get0]
  rfl

theorem impMars1_f0 : impMars1.fetch 0 = impInstr := by
  rw [Mars.fetch_eq, show impMars1.memory = memM from rfl, memM_len, Nat.zero_mod, memM_get0]
  rfl

theorem impMars1_f1 : impMars1.fetch 1 = defaultInstruction := by
  rw [Mars.fetch_eq, show impMars1.memory = memM from rfl, memM_len]
  norm_num [memM_get1]

theorem calc00 : calc_addr_offset 8000 0 0 = 0 := by
  norm_num [calc_addr_offset, USIZE]

theorem calc01 : calc_addr_offset 8000 0 1 = 1 := by
  norm_num [calc_addr_offset, USIZE]

theorem impMars_effA : impMars1.fetch_effective_a = some impInstr := by
  rw [Mars.fetch_effective_a, Mars.effective_addr_a, Mars.effective_addr]
  simp only [show impMars1.pcOpt = some 0 from rfl]
  rw [show impMars1.ir.a = { mode := AddressingMode.Direct, offset := 0 } from rfl]
  simp only [ite_true, Mars.size, show impMars1.memory = memM from rfl, memM_len, calc00,
    Option.map_some', impMars1_f0]

theorem impMars_effB : impMars1.fetch_effective_b = some defaultInstruction := by
  rw [Mars.fetch_effective_b, Mars.effective_addr_b, Mars.effective_addr]
  simp only [show impMars1.pcOpt = some 0 from rfl]
  rw [show impMars1.ir.b = { mode := AddressingMode.Direct, offset := 1 } from rfl]
  simp only [Bool.false_eq_true, ite_false, Mars.size, show impMars1.memory = memM from rfl,
    memM_len, calc01, Option.map_some', impMars1_f1]

theorem impMars_storeB : impMars1.store_effective_b impInstr = some impMars2 := by
  rw [Mars.store_effective_b, Mars.effective_addr_b, Mars.effective_addr]
  simp only [show impMars1.pcOpt = some 0 from rfl]
  rw [show impMars1.ir.b = { mode := AddressingMode.Direct, offset := 1 } from rfl]
  simp only [Bool.false_eq_true, ite_false, Mars.size, show impMars1.memory = memM from rfl,
    memM_len, calc01, Option.map_some', Mars.store]
  rw [show ((1 : Nat) % 8000) = 1 by norm_num]
  rfl

theorem impMars_stepQ : impMars2.step_and_queue_pc = some (impMars3, MarsEvent.Stepped) := by
  rw [Mars.step_and_queue_pc, Mars.step_pc]
  simp only [show impMars2.process_queue = [(0, [0])] from rfl]
  rw [show ((0 + 1) % impMars2.size) = 1 by
        rw [Mars.size, show impMars2.memory = memM2 from rfl, memM2, List.length_set, memM_len]]
  rfl

theorem impMars_exec : impMars1.execute = some (impMars3, MarsEvent.Stepped) := by
  rw [Mars.execute]
  show impMars1.exec_mov = _
  rw [Mars.exec_mov, impMars_effA, impMars_effB, show impMars1.ir.op.mode = OpMode.I from rfl]
  show (match impMars1.store_effective_b (movUpdate OpMode.I impInstr defaultInstruction) with
        | none => none
        | some m1 => m1.step_and_queue_pc) = _
  rw [show movUpdate OpMode.I impInstr defaultInstruction = impInstr from rfl, impMars_storeB]
  show impMars2.step_and_queue_pc = _
  exact impMars_stepQ

theorem impMars_predec : Mars.predecPhase { impMars with ir := impInstr } 0
    impInstr.a.mode impInstr.b.mode = impMars1 := by
  rw [Mars.predecPhase, if_neg (by decide)]
  rfl

theorem impMars_postinc : impMars3.postincPhase 0 impInstr.a.mode impInstr.b.mode = impMars3 := by
  rw [Mars.postincPhase, if_neg (by decide)]

theorem impMars_rotate : impMars3.rotateOnce = some impMars3 := rfl

theorem impMars_end : impMars3.endStep MarsEvent.Stepped =
    some (impMarsF, Except.ok MarsEvent.Finished) := rfl

/-- One step of the single-warrior imp scenario: the machine copies the imp,
then the schedule-length check fires (only one warrior is loaded), so the
step halts with `Finished` before the cycle increment. -/
theorem step_impMars : Mars.step impMars = some (impMarsF, Except.ok MarsEvent.Finished) := by
  rw [Mars.step, if_neg (by decide : ¬ impMars.halted = true),
      if_neg (by decide : ¬ impMars.max_cycles ≤ impMars.cycle)]
  simp only [show impMars.pcOpt = some 0 from rfl]
  rw [impMars_f0, impMars_predec]
  simp only [impMars_exec]
  rw [impMars_postinc]
  simp only [impMars_rotate]
  exact impMars_end

theorem impMarsF_f1 : impMarsF.fetch 1 = impInstr := by
  rw [Mars.fetch_eq, show impMarsF.memory = memM2 from rfl,
      show memM2.length = 8000 by rw [memM2, List.length_set, memM_len],
      show ((1 : Nat) % 8000) = 1 by norm_num,
      memM2, List.getElem?_set_self (by rw [memM_len]; norm_num)]
  rfl

/-- C1: the claim states that under OpMode `AB` a `MOV` writes the a-operand
A-field into the b-operand B-field (and symmetrically for `BA`), leaving all
other fields of the target unchanged.  Evaluating the embedded `exec_mov` on
`MOV.AB $1, $2` with operands `DAT $1, $2` and `DAT $3, $4` shows the code
instead writes the a-operand B-field into the target A-field: the target
becomes `(a = $2, b = $4)`, not the claimed `(a = $3, b = $1)`. -/
theorem C1_mov_ab_swapped :
    (Mars.step movSt).map (fun p => (p.2, p.1.fetch 2)) =
      some (Except.ok MarsEvent.Stepped,
            { op := (movSt.fetch 2).op
            , a := (movSt.fetch 1).b
            , b := (movSt.fetch 2).b }) ∧
    ¬ (Mars.step movSt).map (fun p => p.1.fetch 2) =
      some { op := (movSt.fetch 2).op
           , a := (movSt.fetch 2).a
           , b := (movSt.fetch 1).a } := by
  constructor
  · decide
  · decide

set_option maxRecDepth 8000 in
/-- C2: the claim states that loading/resetting errors whenever any single
program exceeds `max_length` or any two programs are closer than
`min_distance`.  With the default `max_length` of 100, a batch holding a
101-instruction program and a 1-instruction program, both at base 0 (ring
distance 0), passes `validate` and `reset` succeeds: the length fold is
`any` instead of `all`, and spacing is never checked. -/
theorem C2_validate_accepts_bad_batch :
    defaultCore.max_length = 100 ∧ longProg.length = 101 ∧
    Core.validate defaultCore [(0, none, longProg), (0, none, [defaultInstruction])] =
      Except.ok () ∧
    (Core.reset defaultCore [(0, none, longProg), (0, none, [defaultInstruction])]).map
      (fun p => p.2) = some (Except.ok ()) := by
  refine ⟨rfl, by decide, rfl, by decide⟩

/-- C3: the claim states that a `DIV` whose selected divisor half is zero
terminates the process without a write, without a panic, and still counts a
cycle.  On `DIV.A #0, $1` the divisor half (the A offset of the instruction
itself, fetched immediate) is zero and the embedded step returns `none`,
i.e. the source panics on the unguarded integer division. -/
theorem C3_div_by_zero_panics :
    (divSt.fetch 0).op.code = OpCode.Div ∧ (divSt.fetch 0).a.offset = 0 ∧
    Mars.step divSt = none := by
  refine ⟨rfl, rfl, by decide⟩

/-- C4: the claim states that address computation returns the mathematical
`(base + offset) mod core_size`, in particular 9 for size 10, base 0,
offset -1.  The source wraps the subtraction at `2^64` before reducing
modulo the size, so it returns `(2^64 - 1) mod 10 = 5`, not 9. -/
theorem C4_negative_wrap_wrong :
    calc_addr_offset 10 0 (-1) = 5 ∧ calc_addr_offset 10 0 (-1) ≠ 9 := by
  constructor
  · decide
  · decide

/-- C5 counterexample: loading the single imp `MOV.I $0, $1` at 0 under the
default configuration and stepping once does not return `Stepped` with cycle
1 as claimed; it returns `Finished` with cycle still 0, because the
one-warrior schedule trips the `Finished` check on the very first step. -/
theorem C5_counterexample :
    (Mars.step impMars).map (fun p => (p.2, p.1.cycle)) =
      some (Except.ok MarsEvent.Finished, 0) ∧
    (Mars.step impMars).map (fun p => (p.2, p.1.cycle)) ≠
      some (Except.ok MarsEvent.Stepped, 1) := by
  have h : (Mars.step impMars).map (fun p => (p.2, p.1.cycle)) =
      some (Except.ok MarsEvent.Finished, 0) := by
    rw [step_impMars]
    rfl
  refine ⟨h, by rw [h]; decide⟩

/-- C5 amended: loading the single imp at 0 under the default configuration
and stepping once leaves `memory[1]` equal to the imp and the process pc at
1, but the step returns `Finished` with the halted flag set and the cycle
still 0, since the schedule holds at most one warrior. -/
theorem C5_imp_first_step :
    (Mars.step impMars).map
        (fun p => (p.2, p.1.cycle, p.1.halted, p.1.fetch 1, p.1.pcOpt)) =
      some (Except.ok MarsEvent.Finished, 0, true, impInstr, some 1) := by
  rw [step_impMars]
  simp only [Option.map_some', impMarsF_f1]
  rfl

/-- C6: the claim states that `SEQ`, `SNE` and `SLT` compare the operand
halves of the section-3 OpMode mapping (OpMode `A` compares `a.A` with
`b.A`).  On `SEQ.A $1, $2` whose operands have equal A halves (both 1) but a
differing `b.B` (2), the mapping demands a skip, yet the embedded step
returns `Stepped` and advances the pc by one: the source compares `a.a`
against `b.b` under OpMode `A`. -/
theorem C6_seq_compares_wrong_halves :
    (seqSt.fetch 1).a.offset = (seqSt.fetch 2).a.offset ∧
    (Mars.step seqSt).map (fun p => (p.2, p.1.process_queue)) =
      some (Except.ok MarsEvent.Stepped, [(0, [1, 1]), (1, [4])]) := by
  constructor
  · decide
  · decide

/-- C7: the claim states that `SPL` spawns exactly when the sum of all queue
lengths is strictly below `max_processes`, and that the total can never
exceed the cap.  On `SPL.B $0, $0` with total 2 and `max_processes = 3` the
claim demands a spawn, yet the embedded step returns `Stepped` and enqueues
no new process: the guard uses `process_count()`, a fold seeded with 1, so
it compares 3 against 3. -/
theorem C7_spl_guard_off_by_one :
    splSt.totalProcesses < splSt.max_processes ∧
    splSt.process_count = splSt.totalProcesses + 1 ∧
    (Mars.step splSt).map (fun p => (p.2, p.1.process_queue)) =
      some (Except.ok MarsEvent.Stepped, [(0, [1, 1]), (1, [3])]) := by
  refine ⟨by decide, by decide, by decide⟩

/-- C8 counterexample: two imps with `max_cycles = 1`.  After one successful
step (the full cycle budget) the halted flag is still false, refuting the
claim that at most `max_cycles` successful steps suffice. -/
theorem C8_counterexample :
    Mars.stepsOk tieSt.max_cycles tieSt = some tieSt1 ∧ tieSt1.halted = false := by
  refine ⟨by decide, rfl⟩

/-- C8 amended: for every MARS started at cycle 0, after `max_cycles + 1`
successful steps the halted flag is true; and any step entered with the
halted flag clear and `cycle ≥ max_cycles` sets halted and returns `Tied`. -/
theorem C8_halts_after_cap (m m2 mt : Mars) (h0 : m.cycle = 0)
    (h1 : Mars.stepsOk (m.max_cycles + 1) m = some m2)
    (h2 : mt.halted = false) (h3 : mt.max_cycles ≤ mt.cycle) :
    m2.halted = true ∧
      mt.step = some ({ mt with halted := true }, Except.ok MarsEvent.Tied) :=
  ⟨stepsOk_halts h1 (by omega), step_tied h2 h3⟩

theorem C8_halts_after_cap_witness :
    tieSt.cycle = 0 ∧ Mars.stepsOk (tieSt.max_cycles + 1) tieSt = some tieSt2 ∧
    tieSt1.halted = false ∧ tieSt1.max_cycles ≤ tieSt1.cycle ∧
    (tieSt2.halted = true ∧
      tieSt1.step = some ({ tieSt1 with halted := true }, Except.ok MarsEvent.Tied)) :=
  ⟨rfl, by decide, rfl, by decide,
    C8_halts_after_cap tieSt tieSt2 tieSt1 rfl (by decide) rfl (by decide)⟩

/-- C9: calling `step` on a halted MARS returns the `AlreadyHalted` error
(the `Err(())` of the source, modelled as `Except.error ()`) and leaves the
entire state unchanged: the halted guard is the first statement of
`Mars::step` and returns before any mutation. -/
theorem C9_step_when_halted (m : Mars) (h : m.halted = true) :
    m.step = some (m, Except.error ()) :=
  step_halted_eq h

theorem C9_step_when_halted_witness :
    haltedMars.halted = true ∧ haltedMars.step = some (haltedMars, Except.error ()) :=
  ⟨rfl, C9_step_when_halted haltedMars rfl⟩

/-- C10: the claim states that every arithmetic opcode reduces each written
offset into the canonical range `[0, core_size)`.  On `SUB.A $1, $2` in a
10-cell core with operand offsets 0 and 1, the embedded step stores
`0 - 1 = -1`, which is outside `[0, 10)`: the source subtracts without any
modulus (and the `ADD` remainder is the truncated one, which also preserves
negative values). -/
theorem C10_sub_result_not_reduced :
    (Mars.step subSt).map (fun p => (p.2, (p.1.fetch 2).a.offset)) =
      some (Except.ok MarsEvent.Stepped, -1) ∧
    ¬ (0 ≤ (-1 : Int) ∧ (-1 : Int) < (subSt.size : Int)) := by
  constructor
  · decide
  · decide
